import Mathlib

/-!
Verification of the DOM helper module of the autost repository
(src/dom.rs), shallowly embedded in Lean 4.

Modelling conventions:
- Rust `String` / string slices are Lean `String`.
- `serde_json::Value` is an inductive `Value`; its `Number` variant is
  modelled as an `Int` (the repository only coerces numbers through
  `to_string()`, and the values exercised are integers).
- The two process-wide `BTreeSet<(String, String)>` statics
  (`ATTRIBUTES_SEEN` and `NOT_KNOWN_GOOD_ATTRIBUTES_SEEN`) are modelled
  as a `Ledger` record threaded explicitly through the functions that
  mutate them; each set is a strictly sorted list of pairs, and
  insertion is the sorted-list insertion a `BTreeSet` performs.
- `StrTendril` is a Lean `String`; borrowing its bytes is modelled by
  the explicit UTF-8 encoder `utf8Encode`, and `str::from_utf8` by the
  explicit UTF-8 validator and decoder `decodeUtf8`.
-/

namespace Dom

/-! ## Lexicographic order on (String, String) pairs

Rust orders `(String, String)` tuples lexicographically, with each
`String` ordered by its bytes; byte order of UTF-8 agrees with the
codepoint order that the Lean `String` linear order uses. -/

/-- Strict lexicographic order on pairs of strings, as used by the Rust
`BTreeSet<(String, String)>`. -/
def pairLt (a b : String × String) : Prop :=
  a.1 < b.1 ∨ (a.1 = b.1 ∧ a.2 < b.2)

instance (a b : String × String) : Decidable (pairLt a b) := by
  unfold pairLt; infer_instance

theorem pairLt_irrefl (a : String × String) : ¬ pairLt a a := by
  rcases a with ⟨x, y⟩
  rintro (h | ⟨-, h⟩) <;> exact lt_irrefl _ h

theorem pairLt_trans {a b c : String × String} (hab : pairLt a b)
    (hbc : pairLt b c) : pairLt a c := by
  rcases hab with h1 | ⟨e1, h1⟩ <;> rcases hbc with h2 | ⟨e2, h2⟩
  · exact Or.inl (lt_trans h1 h2)
  · exact Or.inl (e2 ▸ h1)
  · exact Or.inl (e1 ▸ h2)
  · exact Or.inr ⟨e1.trans e2, lt_trans h1 h2⟩

theorem pairLt_trichotomy (a b : String × String) :
    pairLt a b ∨ a = b ∨ pairLt b a := by
  rcases a with ⟨x1, y1⟩; rcases b with ⟨x2, y2⟩
  rcases lt_trichotomy x1 x2 with h | h | h
  · exact Or.inl (Or.inl h)
  · rcases lt_trichotomy y1 y2 with h2 | h2 | h2
    · exact Or.inl (Or.inr ⟨h, h2⟩)
    · exact Or.inr (Or.inl (by simp [h, h2]))
    · exact Or.inr (Or.inr (Or.inr ⟨h.symm, h2⟩))
  · exact Or.inr (Or.inr (Or.inl h))

theorem pairLt_ne {a b : String × String} (h : pairLt a b) : a ≠ b := by
  rintro rfl; exact pairLt_irrefl a h

/-- Insertion into a strictly sorted list of pairs, modelling
`BTreeSet::insert`: the element is placed at its ordered position and
dropped if already present. -/
def insertSorted (x : String × String) :
    List (String × String) → List (String × String)
  | [] => [x]
  | y :: ys =>
    if pairLt x y then x :: y :: ys
    else if x = y then y :: ys
    else y :: insertSorted x ys

theorem mem_insertSorted (x a : String × String)
    (l : List (String × String)) :
    a ∈ insertSorted x l ↔ a = x ∨ a ∈ l := by
  induction l with
  | nil => simp [insertSorted]
  | cons y ys ih =>
    by_cases h1 : pairLt x y
    · simp [insertSorted, h1]
    · by_cases h2 : x = y
      · subst h2
        simp only [insertSorted, h1, if_false, if_pos rfl, if_true]
        simp only [List.mem_cons]
        tauto
      · simp only [insertSorted, h1, if_false, h2, List.mem_cons, ih]
        tauto

theorem self_mem_insertSorted (x : String × String)
    (l : List (String × String)) : x ∈ insertSorted x l :=
  (mem_insertSorted x x l).mpr (Or.inl rfl)

theorem subset_insertSorted (x : String × String)
    (l : List (String × String)) : l ⊆ insertSorted x l := by
  intro a ha; exact (mem_insertSorted x a l).mpr (Or.inr ha)

theorem pairwise_insertSorted (x : String × String)
    {l : List (String × String)} (h : l.Pairwise pairLt) :
    (insertSorted x l).Pairwise pairLt := by
  induction l with
  | nil => simp [insertSorted]
  | cons y ys ih =>
    rcases List.pairwise_cons.mp h with ⟨hy, hys⟩
    by_cases h1 : pairLt x y
    · simp only [insertSorted, h1, if_true]
      refine List.pairwise_cons.mpr ⟨?_, h⟩
      intro z hz
      rcases List.mem_cons.mp hz with rfl | hz
      · exact h1
      · exact pairLt_trans h1 (hy z hz)
    · by_cases h2 : x = y
      · subst h2
        simp only [insertSorted, if_neg (pairLt_irrefl x), if_pos rfl]
        exact h
      · simp only [insertSorted, h1, if_false, h2]
        refine List.pairwise_cons.mpr ⟨?_, ih hys⟩
        intro z hz
        rcases (mem_insertSorted x z ys).mp hz with rfl | hz
        · rcases pairLt_trichotomy z y with h3 | h3 | h3
          · exact absurd h3 h1
          · exact absurd h3 h2
          · exact h3
        · exact hy z hz

theorem nodup_of_pairwise {l : List (String × String)}
    (h : l.Pairwise pairLt) : l.Nodup :=
  h.imp pairLt_ne

/-! ## UTF-8 bytes

`StrTendril` is modelled as a Lean `String`; `tendril.borrow()` exposes
its UTF-8 bytes, modelled by `utf8Encode`, and `str::from_utf8` is the
validating decoder `decodeUtf8`.  Bytes are `Nat` values below 256. -/

/-- UTF-8 encoding of a single character (scalar value), as a list of
byte values. -/
def utf8EncodeChar (c : Char) : List Nat :=
  if c.toNat < 128 then [c.toNat]
  else if c.toNat < 2048 then
    [192 + c.toNat / 64, 128 + c.toNat % 64]
  else if c.toNat < 65536 then
    [224 + c.toNat / 4096, 128 + c.toNat / 64 % 64, 128 + c.toNat % 64]
  else
    [240 + c.toNat / 262144, 128 + c.toNat / 4096 % 64,
      128 + c.toNat / 64 % 64, 128 + c.toNat % 64]

/-- UTF-8 encoding of a character sequence. -/
def encodeChars : List Char → List Nat
  | [] => []
  | c :: cs => utf8EncodeChar c ++ encodeChars cs

/-- UTF-8 bytes of a string (the view `tendril.borrow()` exposes). -/
def utf8Encode (s : String) : List Nat := encodeChars s.data

/-- Decode one UTF-8 encoded character from the front of a byte list,
validating continuation bytes, rejecting overlong forms, surrogate
code points and values beyond the Unicode range. -/
def decodeChar : List Nat → Option (Char × List Nat)
  | [] => none
  | b0 :: bs =>
    if b0 < 128 then some (Char.ofNat b0, bs)
    else if b0 < 192 then none
    else if b0 < 224 then
      match bs with
      | b1 :: r =>
        if 128 ≤ b1 ∧ b1 < 192 ∧
            128 ≤ (b0 - 192) * 64 + (b1 - 128) then
          some (Char.ofNat ((b0 - 192) * 64 + (b1 - 128)), r)
        else none
      | [] => none
    else if b0 < 240 then
      match bs with
      | b1 :: b2 :: r =>
        if 128 ≤ b1 ∧ b1 < 192 ∧ 128 ≤ b2 ∧ b2 < 192 ∧
            2048 ≤ (b0 - 224) * 4096 + (b1 - 128) * 64 + (b2 - 128) ∧
            ((b0 - 224) * 4096 + (b1 - 128) * 64 + (b2 - 128) < 55296 ∨
              57343 < (b0 - 224) * 4096 + (b1 - 128) * 64 + (b2 - 128)) then
          some (Char.ofNat ((b0 - 224) * 4096 + (b1 - 128) * 64 + (b2 - 128)), r)
        else none
      | _ => none
    else if b0 < 248 then
      match bs with
      | b1 :: b2 :: b3 :: r =>
        if 128 ≤ b1 ∧ b1 < 192 ∧ 128 ≤ b2 ∧ b2 < 192 ∧ 128 ≤ b3 ∧ b3 < 192 ∧
            65536 ≤ (b0 - 240) * 262144 + (b1 - 128) * 4096 +
              (b2 - 128) * 64 + (b3 - 128) ∧
            (b0 - 240) * 262144 + (b1 - 128) * 4096 +
              (b2 - 128) * 64 + (b3 - 128) < 1114112 then
          some (Char.ofNat ((b0 - 240) * 262144 + (b1 - 128) * 4096 +
            (b2 - 128) * 64 + (b3 - 128)), r)
        else none
      | _ => none
    else none

/-- Decode a whole byte list; `fuel` bounds the number of characters. -/
def decodeChars : Nat → List Nat → Option (List Char)
  | _, [] => some []
  | 0, _ :: _ => none
  | fuel + 1, b :: bs =>
    (decodeChar (b :: bs)).bind fun cr =>
      (decodeChars fuel cr.2).map (List.cons cr.1)

/-- Decoding of a byte list into a string; `none` on invalid UTF-8.
This is the model of `str::from_utf8`. -/
def decodeUtf8 (bs : List Nat) : Option String :=
  (decodeChars bs.length bs).map String.mk

theorem utf8EncodeChar_cons (c : Char) :
    ∃ b tl, utf8EncodeChar c = b :: tl := by
  unfold utf8EncodeChar
  split_ifs <;> exact ⟨_, _, rfl⟩

theorem decodeChar_encode (c : Char) (rest : List Nat) :
    decodeChar (utf8EncodeChar c ++ rest) = some (c, rest) := by
  have hv : c.toNat < 55296 ∨ (57343 < c.toNat ∧ c.toNat < 1114112) := c.valid
  by_cases h1 : c.toNat < 128
  · simp only [utf8EncodeChar, if_pos h1, List.cons_append, List.nil_append,
      decodeChar, if_pos h1, Char.ofNat_toNat]
  · by_cases h2 : c.toNat < 2048
    · have e1 : ¬ (192 + c.toNat / 64 < 128) := by omega
      have e2 : ¬ (192 + c.toNat / 64 < 192) := by omega
      have e3 : 192 + c.toNat / 64 < 224 := by omega
      have e4 : 128 ≤ 128 + c.toNat % 64 ∧ 128 + c.toNat % 64 < 192 ∧
          128 ≤ (192 + c.toNat / 64 - 192) * 64 + (128 + c.toNat % 64 - 128) := by
        refine ⟨by omega, by omega, by omega⟩
      have e5 : (192 + c.toNat / 64 - 192) * 64 + (128 + c.toNat % 64 - 128)
          = c.toNat := by omega
      simp only [utf8EncodeChar, if_neg h1, if_pos h2, List.cons_append,
        List.nil_append, decodeChar, if_neg e1, if_neg e2, if_pos e3,
        if_pos e4, e5, Char.ofNat_toNat]
      split_ifs with hc
      · rfl
      · omega
    · by_cases h3 : c.toNat < 65536
      · have e1 : ¬ (224 + c.toNat / 4096 < 128) := by omega
        have e2 : ¬ (224 + c.toNat / 4096 < 192) := by omega
        have e3 : ¬ (224 + c.toNat / 4096 < 224) := by omega
        have e4 : 224 + c.toNat / 4096 < 240 := by omega
        have e5 : (224 + c.toNat / 4096 - 224) * 4096 +
            (128 + c.toNat / 64 % 64 - 128) * 64 + (128 + c.toNat % 64 - 128)
            = c.toNat := by omega
        have e6 : 128 ≤ 128 + c.toNat / 64 % 64 ∧ 128 + c.toNat / 64 % 64 < 192 ∧
            128 ≤ 128 + c.toNat % 64 ∧ 128 + c.toNat % 64 < 192 ∧
            2048 ≤ (224 + c.toNat / 4096 - 224) * 4096 +
              (128 + c.toNat / 64 % 64 - 128) * 64 + (128 + c.toNat % 64 - 128) ∧
            ((224 + c.toNat / 4096 - 224) * 4096 +
              (128 + c.toNat / 64 % 64 - 128) * 64 + (128 + c.toNat % 64 - 128)
                < 55296 ∨
              57343 < (224 + c.toNat / 4096 - 224) * 4096 +
                (128 + c.toNat / 64 % 64 - 128) * 64 + (128 + c.toNat % 64 - 128)) := by
          refine ⟨by omega, by omega, by omega, by omega, by omega, by omega⟩
        simp only [utf8EncodeChar, if_neg h1, if_neg h2, if_pos h3,
          List.cons_append, List.nil_append, decodeChar, if_neg e1, if_neg e2,
          if_neg e3, if_pos e4, if_pos e6, e5, Char.ofNat_toNat]
        split_ifs with hc
        · rfl
        · omega
      · have hub : c.toNat < 1114112 := by omega
        have e1 : ¬ (240 + c.toNat / 262144 < 128) := by omega
        have e2 : ¬ (240 + c.toNat / 262144 < 192) := by omega
        have e3 : ¬ (240 + c.toNat / 262144 < 224) := by omega
        have e4 : ¬ (240 + c.toNat / 262144 < 240) := by omega
        have e5 : 240 + c.toNat / 262144 < 248 := by omega
        have e6 : (240 + c.toNat / 262144 - 240) * 262144 +
            (128 + c.toNat / 4096 % 64 - 128) * 4096 +
            (128 + c.toNat / 64 % 64 - 128) * 64 +
            (128 + c.toNat % 64 - 128) = c.toNat := by omega
        have e7 : 128 ≤ 128 + c.toNat / 4096 % 64 ∧ 128 + c.toNat / 4096 % 64 < 192 ∧
            128 ≤ 128 + c.toNat / 64 % 64 ∧ 128 + c.toNat / 64 % 64 < 192 ∧
            128 ≤ 128 + c.toNat % 64 ∧ 128 + c.toNat % 64 < 192 ∧
            65536 ≤ (240 + c.toNat / 262144 - 240) * 262144 +
              (128 + c.toNat / 4096 % 64 - 128) * 4096 +
              (128 + c.toNat / 64 % 64 - 128) * 64 + (128 + c.toNat % 64 - 128) ∧
            (240 + c.toNat / 262144 - 240) * 262144 +
              (128 + c.toNat / 4096 % 64 - 128) * 4096 +
              (128 + c.toNat / 64 % 64 - 128) * 64 + (128 + c.toNat % 64 - 128)
              < 1114112 := by
          refine ⟨by omega, by omega, by omega, by omega, by omega, by omega,
            by omega, by omega⟩
        simp only [utf8EncodeChar, if_neg h1, if_neg h2, if_neg h3,
          List.cons_append, List.nil_append, decodeChar, if_neg e1, if_neg e2,
          if_neg e3, if_neg e4, if_pos e5, if_pos e7, e6, Char.ofNat_toNat]
        split_ifs with hc
        · rfl
        · omega

theorem decodeChars_encodeChars (l : List Char) :
    ∀ fuel, (encodeChars l).length ≤ fuel →
      decodeChars fuel (encodeChars l) = some l := by
  induction l with
  | nil => intro fuel _; cases fuel <;> simp [encodeChars, decodeChars]
  | cons c cs ih =>
    intro fuel h
    obtain ⟨b, tl, hbt⟩ := utf8EncodeChar_cons c
    have hlen1 : 1 ≤ (utf8EncodeChar c).length := by rw [hbt]; simp
    have hExp : encodeChars (c :: cs) = utf8EncodeChar c ++ encodeChars cs := rfl
    have hall : (encodeChars (c :: cs)).length
        = (utf8EncodeChar c).length + (encodeChars cs).length := by
      rw [hExp, List.length_append]
    cases fuel with
    | zero => omega
    | succ fuel =>
      have hfuel : (encodeChars cs).length ≤ fuel := by omega
      rw [hExp, hbt, List.cons_append]
      simp only [decodeChars]
      rw [← List.cons_append, ← hbt, decodeChar_encode]
      simp only [Option.bind]
      rw [ih fuel hfuel]
      rfl

theorem decodeUtf8_utf8Encode (s : String) :
    decodeUtf8 (utf8Encode s) = some s := by
  unfold decodeUtf8 utf8Encode
  rw [decodeChars_encodeChars s.data _ le_rfl]
  rfl

/-! ## Qualified names, attributes and JSON values -/

/-- The HTML namespace URL that the macro `ns!(html)` expands to. -/
def htmlNamespace : String := "http://www.w3.org/1999/xhtml"

/-- Model of `html5ever::QualName`: an optional namespace shorthand, a
namespace URL and a local name.  `ns!()` is the empty string. -/
structure QualName where
  prefx : Option String
  ns : String
  loc : String
deriving DecidableEq

/-- Model of `html5ever::Attribute`: a qualified name and a tendril
value (tendrils are modelled as strings). -/
structure Attribute where
  name : QualName
  value : String
deriving DecidableEq

/-- Model of `make_html_tag_name` from src/dom.rs. -/
def make_html_tag_name (name : String) : QualName :=
  ⟨none, htmlNamespace, name⟩

/-- Model of `make_attribute_name` from src/dom.rs: attribute names use
the null namespace. -/
def make_attribute_name (name : String) : QualName :=
  ⟨none, "", name⟩

/-- Model of `serde_json::Value`.  Numbers are modelled as integers
(the repository stringifies them with `to_string`). -/
inductive Value where
  | null
  | bool (b : Bool)
  | num (n : Int)
  | str (s : String)
  | arr (vs : List Value)
  | obj (fields : List (String × Value))

/-- Model of `serde_json::Value::as_str`: the string payload for
string values, `none` for every other variant. -/
def Value.asStr : Value → Option String
  | .str s => some s
  | _ => none

/-! ## The diagnostics ledger and the static attribute tables -/

/-- The two process-wide `BTreeSet<(String, String)>` statics of
src/dom.rs (`ATTRIBUTES_SEEN` and `NOT_KNOWN_GOOD_ATTRIBUTES_SEEN`),
threaded through the functions that mutate them. -/
structure Ledger where
  attributes_seen : List (String × String)
  not_known_good_attributes_seen : List (String × String)
deriving DecidableEq

/-- Both statics start out as empty sets. -/
def Ledger.empty : Ledger := ⟨[], []⟩

/-- Model of the  `KNOWN_GOOD_ATTRIBUTES` static from src/dom.rs. -/
def KNOWN_GOOD_ATTRIBUTES : List (Option String × String) :=
  [(none, "aria-hidden"),
   (none, "aria-label"),
   (none, "id"),
   (none, "style"),
   (none, "tabindex"),
   (none, "title"),
   (some "Mention", "handle"),
   (some "a", "href"),
   (some "a", "name"),
   (some "a", "target"),
   (some "details", "name"),
   (some "details", "open"),
   (some "div", "align"),
   (some "h3", "align"),
   (some "img", "alt"),
   (some "img", "border"),
   (some "img", "height"),
   (some "img", "src"),
   (some "img", "width"),
   (some "input", "disabled"),
   (some "input", "name"),
   (some "input", "type"),
   (some "input", "value"),
   (some "ol", "start"),
   (some "p", "align"),
   (some "td", "align"),
   (some "th", "align")]

/-- Model of the `RENAME_IDL_TO_CONTENT_ATTRIBUTE` static from
src/dom.rs: a map from (optional tag scope, IDL property name) to
content attribute name. -/
def RENAME_IDL_TO_CONTENT_ATTRIBUTE :
    List ((Option String × String) × String) :=
  [((none, "ariaHidden"), "aria-hidden"),
   ((none, "ariaLabel"), "aria-label"),
   ((none, "className"), "class"),
   ((none, "tabIndex"), "tabindex")]

/-- Model of `BTreeMap::get` on the rename table. -/
def renameLookup (key : Option String × String) : Option String :=
  (RENAME_IDL_TO_CONTENT_ATTRIBUTE.find? fun e => e.1 = key).map (·.2)

/-- The pure renaming performed by `rename_idl_to_content_attribute`:
the tag-scoped entry, else the unscoped entry, else the property name
unchanged. -/
def renameResult (tag_name attribute_name : String) : String :=
  match renameLookup (some tag_name, attribute_name) with
  | some r => r
  | none =>
    match renameLookup (none, attribute_name) with
    | some r => r
    | none => attribute_name

/-- Model of the `KNOWN_GOOD_ATTRIBUTES.contains` allowlist test of
src/dom.rs lines 222 and 223: true iff the unscoped pair or the
tag-scoped pair is present. -/
def isKnownGood (tag_name result : String) : Bool :=
  decide ((none, result) ∈ KNOWN_GOOD_ATTRIBUTES)
    || decide ((some tag_name, result) ∈ KNOWN_GOOD_ATTRIBUTES)

/-- The ledger mutation that `rename_idl_to_content_attribute`
performs: insert the (tag, renamed) pair into `ATTRIBUTES_SEEN`, and
into `NOT_KNOWN_GOOD_ATTRIBUTES_SEEN` when the allowlist test fails. -/
def recordPair (tag_name result : String) (st : Ledger) : Ledger :=
  { attributes_seen := insertSorted (tag_name, result) st.attributes_seen,
    not_known_good_attributes_seen :=
      if isKnownGood tag_name result then st.not_known_good_attributes_seen
      else insertSorted (tag_name, result) st.not_known_good_attributes_seen }

/-- Model of `rename_idl_to_content_attribute` from src/dom.rs: the
renamed attribute name wrapped by `make_attribute_name`, together with
the updated diagnostics ledger. -/
def rename_idl_to_content_attribute (tag_name attribute_name : String)
    (st : Ledger) : QualName × Ledger :=
  (make_attribute_name (renameResult tag_name attribute_name),
    recordPair tag_name (renameResult tag_name attribute_name) st)

/-- Result of a coercion call: the optional attribute, the ledger
after the call, and whether the unknown-shape diagnostic (the `error!`
log line) was emitted. -/
structure CoerceResult where
  attr : Option Attribute
  ledger : Ledger
  diag : Bool
deriving DecidableEq

/-- Model of `convert_idl_to_content_attribute` from src/dom.rs.  The
source first returns `None` on boolean `false`, then builds the
`Attribute` struct whose `name` field (evaluated first) calls
`rename_idl_to_content_attribute` and whose `value` field is the match
on the JSON value; the unknown-shape arm logs `error!` and returns
`None` after the ledger was already updated. -/
def convert_idl_to_content_attribute (tag_name attribute_name : String)
    (value : Value) (st : Ledger) : CoerceResult :=
  match value with
  | .bool false => ⟨none, st, false⟩
  | .str s =>
    let renamed := rename_idl_to_content_attribute tag_name attribute_name st
    ⟨some ⟨renamed.1, s⟩, renamed.2, false⟩
  | .num n =>
    let renamed := rename_idl_to_content_attribute tag_name attribute_name st
    ⟨some ⟨renamed.1, toString n⟩, renamed.2, false⟩
  | .bool true =>
    let renamed := rename_idl_to_content_attribute tag_name attribute_name st
    ⟨some ⟨renamed.1, ""⟩, renamed.2, false⟩
  | .arr vs =>
    let renamed := rename_idl_to_content_attribute tag_name attribute_name st
    if attribute_name = "className" ∨ attribute_name = "rel" then
      ⟨some ⟨renamed.1, String.intercalate " " (vs.filterMap Value.asStr)⟩,
        renamed.2, false⟩
    else ⟨none, renamed.2, true⟩
  | .null =>
    let renamed := rename_idl_to_content_attribute tag_name attribute_name st
    ⟨none, renamed.2, true⟩
  | .obj _ =>
    let renamed := rename_idl_to_content_attribute tag_name attribute_name st
    ⟨none, renamed.2, true⟩

/-- Model of `debug_attributes_seen`: a snapshot of the first set. -/
def debug_attributes_seen (st : Ledger) : List (String × String) :=
  st.attributes_seen

/-- Model of `debug_not_known_good_attributes_seen`: a snapshot of the
second set. -/
def debug_not_known_good_attributes_seen (st : Ledger) :
    List (String × String) :=
  st.not_known_good_attributes_seen

/-! ## The node tree (markup5ever_rcdom) -/

/-- Model of `markup5ever_rcdom::NodeData` (the template contents and
integration point flags of elements carry no weight here). -/
inductive NodeData where
  | document
  | doctype (name publicId systemId : String)
  | text (contents : String)
  | comment (contents : String)
  | element (name : QualName) (attrs : List Attribute)
  | processingInstruction (target contents : String)
deriving DecidableEq

/-- Model of `markup5ever_rcdom::Node`: node data plus the owned,
ordered child list. -/
inductive Node where
  | mk (data : NodeData) (children : List Node)

/-- The node data of a node. -/
def Node.data : Node → NodeData
  | .mk d _ => d

/-- The child list of a node. -/
def Node.children : Node → List Node
  | .mk _ c => c

/-- Model of `markup5ever_rcdom::RcDom`: the document node (errors and
quirks mode are not modelled). -/
structure RcDom where
  document : Node

mutual

/-- Number of nodes in a tree. -/
def Node.size : Node → Nat
  | .mk _ children => 1 + sizeList children

def sizeList : List Node → Nat
  | [] => 0
  | n :: rest => Node.size n + sizeList rest

end

theorem size_eq (n : Node) : n.size = 1 + sizeList n.children := by
  cases n; rfl

theorem sizeList_append (a b : List Node) :
    sizeList (a ++ b) = sizeList a + sizeList b := by
  induction a with
  | nil => simp [sizeList]
  | cons n rest ih => simp [sizeList, ih]; omega

/-- Model of one `Iterator::next` step of `Traverse` from src/dom.rs:
on a nonempty pending vector, remove the front node, append its
children at the back, and yield the node. -/
def Traverse.next : List Node → Option (Node × List Node)
  | [] => none
  | n :: rest => some (n, rest ++ n.children)

/-- The full sequence the `Traverse` iterator yields from a given
pending vector, obtained by iterating `Traverse.next` to exhaustion. -/
def runTraverse (q : List Node) : List Node :=
  match q with
  | [] => []
  | n :: rest => n :: runTraverse (rest ++ n.children)
termination_by sizeList q
decreasing_by
  rw [sizeList_append, sizeList, size_eq]
  omega

/-- The sequence yielded by `Traverse::new(root)`, i.e. starting from
the pending vector `vec![root]`. -/
def traverse (root : Node) : List Node := runTraverse [root]

mutual

/-- All nodes of a tree, the root followed by its descendants
(document-order enumeration, used as the reference node multiset). -/
def Node.allNodes : Node → List Node
  | .mk data children => .mk data children :: allNodesList children

def allNodesList : List Node → List Node
  | [] => []
  | n :: rest => Node.allNodes n ++ allNodesList rest

end

theorem allNodes_eq (n : Node) :
    n.allNodes = n :: allNodesList n.children := by
  cases n; rfl

theorem allNodesList_append (a b : List Node) :
    allNodesList (a ++ b) = allNodesList a ++ allNodesList b := by
  induction a with
  | nil => simp [allNodesList]
  | cons n rest ih => simp [allNodesList, ih]

/-! ## The serializer

The shape checks of `serialize` are translated from src/dom.rs; the
rendering of the accepted tree models the html5ever HTML serializer
(an external crate) with its default options, whose traversal scope
serializes only the children of the handed root. -/

/-- Void elements, which are serialized without children or end tag. -/
def voidElements : List String :=
  ["area", "base", "basefont", "bgsound", "br", "col", "embed", "frame",
   "hr", "img", "input", "keygen", "link", "meta", "param", "source",
   "track", "wbr"]

/-- Elements whose text children are emitted without escaping. -/
def rawTextElements : List String :=
  ["style", "script", "xmp", "iframe", "noembed", "noframes", "plaintext"]

/-- HTML escaping of one text character. -/
def escapeTextChar (c : Char) : String :=
  if c = '&' then "&amp;"
  else if c = Char.ofNat 160 then "&nbsp;"
  else if c = '<' then "&lt;"
  else if c = '>' then "&gt;"
  else String.mk [c]

/-- HTML escaping of one attribute value character. -/
def escapeAttrChar (c : Char) : String :=
  if c = '&' then "&amp;"
  else if c = Char.ofNat 160 then "&nbsp;"
  else if c = '"' then "&quot;"
  else String.mk [c]

/-- HTML escaping of text content. -/
def escapeText (s : String) : String :=
  String.join (s.data.map escapeTextChar)

/-- HTML escaping of an attribute value. -/
def escapeAttr (s : String) : String :=
  String.join (s.data.map escapeAttrChar)

/-- Rendering of an attribute list inside a start tag. -/
def serializeAttrs (attrs : List Attribute) : String :=
  String.join (attrs.map fun a =>
    " " ++ a.name.loc ++ "=\"" ++ escapeAttr a.value ++ "\"")

mutual

/-- Rendering of a node including itself; `raw` is true inside
elements whose text is emitted unescaped. -/
def serializeNode (raw : Bool) : Node → String
  | .mk data children =>
    match data with
    | .element name attrs =>
      if voidElements.contains name.loc then
        "<" ++ name.loc ++ serializeAttrs attrs ++ ">"
      else
        "<" ++ name.loc ++ serializeAttrs attrs ++ ">"
          ++ serializeNodes (rawTextElements.contains name.loc) children
          ++ "</" ++ name.loc ++ ">"
    | .text s => if raw then s else escapeText s
    | .comment s => "<!--" ++ s ++ "-->"
    | .doctype name _ _ => "<!DOCTYPE " ++ name ++ ">"
    | .processingInstruction target contents =>
      "<?" ++ target ++ " " ++ contents ++ ">"
    | .document => serializeNodes false children

def serializeNodes (raw : Bool) : List Node → String
  | [] => ""
  | n :: rest => serializeNode raw n ++ serializeNodes raw rest

end

/-- Model of `serialize` from src/dom.rs: fail unless the document has
exactly one child and that child is an element whose qualified name is
exactly `html` in the HTML namespace, then render that root with the
default (children-only) traversal scope. -/
def serialize (dom : RcDom) : Except String String :=
  match dom.document.children with
  | [root] =>
    match root.data with
    | .element name _ =>
      if name = ⟨none, htmlNamespace, "html"⟩ then
        .ok (serializeNodes false root.children)
      else .error "expected root element to be html"
    | _ => .error "expected root element to be html"
  | _ => .error "expected exactly one root element"

/-! ## Fragment construction and parsing -/

/-- Model of `create_element` from src/dom.rs: a detached element with
the given local name in the HTML namespace and no attributes or
children (the `RcDom` argument is only an allocator there). -/
def create_element (html_local_name : String) : Node :=
  .mk (.element (make_html_tag_name html_local_name) []) []

/-- Model of `create_fragment` from src/dom.rs: a fresh document whose
sole child is a wrapper `html` element, returned with that wrapper. -/
def create_fragment : RcDom × Node :=
  let root := create_element "html"
  (⟨Node.mk .document [root]⟩, root)

/-- A simplified model of the content the fragment parser builds under
the wrapper element: the decoded input as a single text child when
nonempty.  The claims settled here depend only on the document shape
around this content, not on the content itself. -/
def fragmentContent (s : String) : List Node :=
  if s = "" then [] else [.mk (.text s) []]

/-- Modelled from the spec: `parse` in src/dom.rs delegates to
`html5ever::parse_fragment` (an external crate, absent from src/),
which per the spec runs the standard fragment tree-construction
algorithm and always produces a tree whose document wraps the parsed
content in a single synthetic `html` root element; it can fail only on
encoding-level faults of the input bytes. -/
def parse (input : List Nat) : Except String RcDom :=
  match decodeUtf8 input with
  | none => .error "input is not valid utf-8"
  | some s =>
    .ok ⟨Node.mk .document
      [Node.mk (.element ⟨none, htmlNamespace, "html"⟩ []) (fragmentContent s)]⟩

/-! ## Attribute lookup -/

/-- Model of `tendril_to_str` from src/dom.rs: run `str::from_utf8` on
the bytes the tendril exposes. -/
def tendril_to_str (tendril : String) : Except String String :=
  match decodeUtf8 (utf8Encode tendril) with
  | some s => .ok s
  | none => .error "invalid utf-8"

/-- Model of `attr_value` from src/dom.rs: scan the attribute list for
the first attribute whose qualified name is the unnamespaced `name`,
and decode its value; the `?` operator propagates a decode failure. -/
def attr_value (attrs : List Attribute) (name : String) :
    Except String (Option String) :=
  match attrs with
  | [] => .ok none
  | attr :: rest =>
    if attr.name = ⟨none, "", name⟩ then
      match tendril_to_str attr.value with
      | .ok s => .ok (some s)
      | .error e => .error e
    else attr_value rest name

/-- The behaviour src/dom.rs documents for `attr_value`, written from
the spec for comparison: the first matching attribute's value in
document order, or nothing, always successfully. -/
def attr_value_spec (attrs : List Attribute) (name : String) :
    Option String :=
  match attrs with
  | [] => none
  | attr :: rest =>
    if attr.name = ⟨none, "", name⟩ then some attr.value
    else attr_value_spec rest name

/-! ## Helper lemmas about renaming and the coercion ledger -/

theorem renameLookup_some_scope (tag attrName : String) :
    renameLookup (some tag, attrName) = none := by
  unfold renameLookup RENAME_IDL_TO_CONTENT_ATTRIBUTE
  simp [List.find?]

theorem renameResult_className (tag : String) :
    renameResult tag "className" = "class" := by
  unfold renameResult
  rw [renameLookup_some_scope]
  rfl

theorem renameResult_rel (tag : String) :
    renameResult tag "rel" = "rel" := by
  unfold renameResult
  rw [renameLookup_some_scope]
  rfl

/-- The ledger after a coercion call: untouched on boolean `false`,
otherwise updated by the recording that renaming performs. -/
theorem convert_ledger (tag_name attribute_name : String) (v : Value)
    (st : Ledger) :
    (convert_idl_to_content_attribute tag_name attribute_name v st).ledger
      = match v with
        | .bool false => st
        | _ => recordPair tag_name
            (renameResult tag_name attribute_name) st := by
  cases v with
  | bool b => cases b <;> rfl
  | arr vs =>
    simp only [convert_idl_to_content_attribute]
    split_ifs <;> rfl
  | _ => rfl

/-- The invariants claimed for the diagnostics ledger: the unknowns
snapshot is a subset of the all-seen snapshot, and both snapshots are
strictly sorted and duplicate-free. -/
def LedgerGood (st : Ledger) : Prop :=
  debug_not_known_good_attributes_seen st ⊆ debug_attributes_seen st
  ∧ (debug_attributes_seen st).Pairwise pairLt
  ∧ (debug_not_known_good_attributes_seen st).Pairwise pairLt
  ∧ (debug_attributes_seen st).Nodup
  ∧ (debug_not_known_good_attributes_seen st).Nodup

theorem ledgerGood_empty : LedgerGood Ledger.empty := by
  refine ⟨?_, ?_, ?_, ?_, ?_⟩ <;>
    simp [Ledger.empty, debug_attributes_seen,
      debug_not_known_good_attributes_seen]

theorem ledgerGood_recordPair (tag r : String) {st : Ledger}
    (h : LedgerGood st) : LedgerGood (recordPair tag r st) := by
  obtain ⟨hsub, hp1, hp2, -, -⟩ := h
  simp only [debug_attributes_seen, debug_not_known_good_attributes_seen]
    at hsub hp1 hp2
  unfold LedgerGood recordPair debug_attributes_seen
    debug_not_known_good_attributes_seen
  by_cases hk : isKnownGood tag r
  · rw [if_pos hk]
    have hp1i := pairwise_insertSorted (tag, r) hp1
    exact ⟨fun a ha => subset_insertSorted _ _ (hsub ha), hp1i, hp2,
      nodup_of_pairwise hp1i, nodup_of_pairwise hp2⟩
  · rw [if_neg hk]
    have hp1i := pairwise_insertSorted (tag, r) hp1
    have hp2i := pairwise_insertSorted (tag, r) hp2
    refine ⟨?_, hp1i, hp2i, nodup_of_pairwise hp1i, nodup_of_pairwise hp2i⟩
    intro a ha
    rcases (mem_insertSorted _ a _).mp ha with rfl | ha
    · exact self_mem_insertSorted _ _
    · exact subset_insertSorted _ _ (hsub ha)

/-- Each coercion call only ever grows both ledger sets. -/
theorem ledger_grow (tag_name attribute_name : String) (v : Value)
    (st : Ledger) :
    st.attributes_seen ⊆
      (convert_idl_to_content_attribute tag_name attribute_name v st).ledger.attributes_seen
    ∧ st.not_known_good_attributes_seen ⊆
      (convert_idl_to_content_attribute tag_name attribute_name v st).ledger.not_known_good_attributes_seen := by
  rw [convert_ledger]
  cases v with
  | bool b =>
    cases b
    · exact ⟨fun a ha => ha, fun a ha => ha⟩
    · refine ⟨subset_insertSorted _ _, ?_⟩
      show _ ⊆ (recordPair _ _ _).not_known_good_attributes_seen
      unfold recordPair
      split_ifs
      · exact fun a ha => ha
      · exact subset_insertSorted _ _
  | _ =>
    refine ⟨subset_insertSorted _ _, ?_⟩
    show _ ⊆ (recordPair _ _ _).not_known_good_attributes_seen
    unfold recordPair
    split_ifs
    · exact fun a ha => ha
    · exact subset_insertSorted _ _

theorem ledgerGood_convert (tag_name attribute_name : String) (v : Value)
    {st : Ledger} (h : LedgerGood st) :
    LedgerGood (convert_idl_to_content_attribute tag_name attribute_name v st).ledger := by
  rw [convert_ledger]
  cases v with
  | bool b =>
    cases b
    · exact h
    · exact ledgerGood_recordPair _ _ h
  | null => exact ledgerGood_recordPair _ _ h
  | num n => exact ledgerGood_recordPair _ _ h
  | str s => exact ledgerGood_recordPair _ _ h
  | arr vs => exact ledgerGood_recordPair _ _ h
  | obj fields => exact ledgerGood_recordPair _ _ h

/-- All ledger states that a sequence of coercion calls can produce,
starting from the initial empty statics. -/
inductive Reachable : Ledger → Prop where
  | empty : Reachable Ledger.empty
  | step (tag_name attribute_name : String) (v : Value) {st : Ledger} :
      Reachable st →
      Reachable (convert_idl_to_content_attribute tag_name attribute_name v st).ledger

/-! ## Helper lemmas about serialization and traversal -/

/-- Serialization succeeds exactly on documents whose child list is a
single element child named `html` in the HTML namespace. -/
theorem serialize_ok_iff (dom : RcDom) :
    (∃ s, serialize dom = Except.ok s) ↔
      ∃ attrs kids, dom.document.children
        = [Node.mk (NodeData.element ⟨none, htmlNamespace, "html"⟩ attrs) kids] := by
  obtain ⟨doc⟩ := dom
  obtain ⟨data, children⟩ := doc
  cases children with
  | nil => simp [serialize, Node.children]
  | cons root rest =>
    cases rest with
    | cons b rest2 => simp [serialize, Node.children]
    | nil =>
      obtain ⟨rdata, rkids⟩ := root
      cases rdata with
      | element name attrs =>
        by_cases hn : name = (⟨none, htmlNamespace, "html"⟩ : QualName)
        · subst hn
          simp only [serialize, Node.children, Node.data, if_pos rfl]
          constructor
          · intro _; exact ⟨attrs, rkids, rfl⟩
          · intro _; exact ⟨_, rfl⟩
        · simp only [serialize, Node.children, Node.data, if_neg hn]
          constructor
          · rintro ⟨s, hs⟩; cases hs
          · rintro ⟨attrs2, kids2, hk⟩
            exfalso
            apply hn
            injection hk with h1 h2
            injection h1 with hd h3
            injection hd with hn2 h4
      | document => simp [serialize, Node.children, Node.data]
      | doctype a b c => simp [serialize, Node.children, Node.data]
      | text s => simp [serialize, Node.children, Node.data]
      | comment s => simp [serialize, Node.children, Node.data]
      | processingInstruction a b => simp [serialize, Node.children, Node.data]

/-- The traversal yields exactly the nodes of the trees in the pending
queue, each once (stated up to permutation). -/
theorem runTraverse_perm_all (N : Nat) :
    ∀ q : List Node, sizeList q ≤ N →
      (runTraverse q).Perm (allNodesList q) := by
  induction N with
  | zero =>
    intro q h
    cases q with
    | nil => simp [runTraverse, allNodesList]
    | cons n rest =>
      exfalso
      have hs := size_eq n
      simp only [sizeList] at h
      omega
  | succ N ih =>
    intro q h
    cases q with
    | nil => simp [runTraverse, allNodesList]
    | cons n rest =>
      have hs := size_eq n
      simp only [sizeList] at h
      have hsz : sizeList (rest ++ n.children) ≤ N := by
        rw [sizeList_append]; omega
      have hperm := ih (rest ++ n.children) hsz
      have h2 : (runTraverse (rest ++ n.children)).Perm
          (allNodesList n.children ++ allNodesList rest) :=
        hperm.trans (by rw [allNodesList_append]; exact List.perm_append_comm)
      rw [runTraverse, allNodesList, allNodes_eq, List.cons_append]
      exact h2.cons n

/-- The traversal visits exactly as many nodes as the queue holds. -/
theorem runTraverse_length (N : Nat) :
    ∀ q : List Node, sizeList q ≤ N →
      (runTraverse q).length = sizeList q := by
  induction N with
  | zero =>
    intro q h
    cases q with
    | nil => simp [runTraverse, sizeList]
    | cons n rest =>
      exfalso
      have hs := size_eq n
      simp only [sizeList] at h
      omega
  | succ N ih =>
    intro q h
    cases q with
    | nil => simp [runTraverse, sizeList]
    | cons n rest =>
      have hs := size_eq n
      simp only [sizeList] at h
      have hsz : sizeList (rest ++ n.children) ≤ N := by
        rw [sizeList_append]; omega
      rw [runTraverse, List.length_cons, ih (rest ++ n.children) hsz,
        sizeList_append, sizeList]
      omega

/-- Example tree of depth 2: a root with children A and B, where A has
a single child C. -/
def nodeC : Node := .mk (.element (make_html_tag_name "c") []) []

/-- Child A of the example tree, carrying C. -/
def nodeA : Node := .mk (.element (make_html_tag_name "a") []) [nodeC]

/-- Child B of the example tree, a leaf. -/
def nodeB : Node := .mk (.element (make_html_tag_name "b") []) []

/-- Root of the example tree. -/
def nodeR : Node := .mk (.element (make_html_tag_name "r") []) [nodeA, nodeB]

/-! ## Claim theorems -/

/-- C1, counterexample: as stated, the claim is false — coercing the
boolean value `false` yields "omit" without recording anything, so
after the call `coerce("details", "open", false)` on the empty ledger
the pair `("details", rename("details", "open"))` is not in the
all-seen set. -/
theorem c1_counterexample :
    ("details", renameResult "details" "open") ∉
      debug_attributes_seen
        (convert_idl_to_content_attribute "details" "open"
          (Value.bool false) Ledger.empty).ledger := by
  simp [convert_idl_to_content_attribute, debug_attributes_seen, Ledger.empty]

/-- C1 (amended): for every JSON value other than boolean `false`, the
coercion call — whether it yields an attribute or "omit" — inserts the
pair (tag, rename(tag, property)) into the "all seen" set, and updates
the "not allowlisted" set by inserting the pair exactly when
`is_known_good` is false for the renamed name; a call on boolean
`false` yields "omit" and leaves both sets untouched. -/
theorem c1_records_renamed_pair (tag_name attribute_name : String)
    (v : Value) (st : Ledger) (h : v ≠ Value.bool false) :
    (tag_name, renameResult tag_name attribute_name) ∈
      debug_attributes_seen
        (convert_idl_to_content_attribute tag_name attribute_name v st).ledger
    ∧ debug_attributes_seen
        (convert_idl_to_content_attribute tag_name attribute_name v st).ledger
      = insertSorted (tag_name, renameResult tag_name attribute_name)
          (debug_attributes_seen st)
    ∧ debug_not_known_good_attributes_seen
        (convert_idl_to_content_attribute tag_name attribute_name v st).ledger
      = (if isKnownGood tag_name (renameResult tag_name attribute_name)
          then debug_not_known_good_attributes_seen st
          else insertSorted (tag_name, renameResult tag_name attribute_name)
            (debug_not_known_good_attributes_seen st))
    ∧ (convert_idl_to_content_attribute tag_name attribute_name
        (Value.bool false) st).ledger = st := by
  have hl : (convert_idl_to_content_attribute tag_name attribute_name v st).ledger
      = recordPair tag_name (renameResult tag_name attribute_name) st := by
    rw [convert_ledger]
    cases v with
    | bool b =>
      cases b
      · exact absurd rfl h
      · rfl
    | null => rfl
    | num n => rfl
    | str s => rfl
    | arr vs => rfl
    | obj fields => rfl
  simp only [debug_attributes_seen, debug_not_known_good_attributes_seen, hl]
  exact ⟨self_mem_insertSorted _ _, rfl, rfl, rfl⟩

/-- C1, witness: a concrete string-valued coercion records the renamed
pair as described. -/
theorem c1_witness :
    ("div", renameResult "div" "className") ∈
      debug_attributes_seen
        (convert_idl_to_content_attribute "div" "className"
          (Value.str "x") Ledger.empty).ledger
    ∧ debug_attributes_seen
        (convert_idl_to_content_attribute "div" "className"
          (Value.str "x") Ledger.empty).ledger
      = insertSorted ("div", renameResult "div" "className")
          (debug_attributes_seen Ledger.empty)
    ∧ debug_not_known_good_attributes_seen
        (convert_idl_to_content_attribute "div" "className"
          (Value.str "x") Ledger.empty).ledger
      = (if isKnownGood "div" (renameResult "div" "className")
          then debug_not_known_good_attributes_seen Ledger.empty
          else insertSorted ("div", renameResult "div" "className")
            (debug_not_known_good_attributes_seen Ledger.empty))
    ∧ (convert_idl_to_content_attribute "div" "className"
        (Value.bool false) Ledger.empty).ledger = Ledger.empty :=
  c1_records_renamed_pair "div" "className" (Value.str "x") Ledger.empty
    (fun hk => Value.noConfusion hk)

/-- C2: serialization succeeds (with some output) exactly on documents
whose child list is one `html`-named element in the HTML namespace;
every other shape — zero children, two or more children, or one child
that is not such an element — fails with an error and no output. -/
theorem c2_serialize_root_invariant (dom : RcDom) :
    (∃ s, serialize dom = Except.ok s) ↔
      ∃ attrs kids, dom.document.children
        = [Node.mk (NodeData.element ⟨none, htmlNamespace, "html"⟩ attrs) kids] :=
  serialize_ok_iff dom

/-- C3: coercing a JSON value whose shape matches no handled case —
null, an object, or an array for an attribute other than the
class-list and relationship-list properties — emits the diagnostic and
yields "omit", never an attribute. -/
theorem c3_unknown_shapes (tag_name attribute_name : String) (st : Ledger)
    (fields : List (String × Value)) (vs : List Value) :
    ((convert_idl_to_content_attribute tag_name attribute_name Value.null st).attr
        = none
      ∧ (convert_idl_to_content_attribute tag_name attribute_name Value.null st).diag
        = true)
    ∧ ((convert_idl_to_content_attribute tag_name attribute_name
          (Value.obj fields) st).attr = none
      ∧ (convert_idl_to_content_attribute tag_name attribute_name
          (Value.obj fields) st).diag = true)
    ∧ (attribute_name ≠ "className" → attribute_name ≠ "rel" →
        (convert_idl_to_content_attribute tag_name attribute_name
          (Value.arr vs) st).attr = none
        ∧ (convert_idl_to_content_attribute tag_name attribute_name
          (Value.arr vs) st).diag = true) := by
  refine ⟨⟨rfl, rfl⟩, ⟨rfl, rfl⟩, ?_⟩
  intro h1 h2
  have hcond : ¬ (attribute_name = "className" ∨ attribute_name = "rel") :=
    fun hc => hc.elim h1 h2
  simp [convert_idl_to_content_attribute, if_neg hcond]

/-- C3, witness: concrete unknown shapes for the attribute `href`. -/
theorem c3_witness :
    ((convert_idl_to_content_attribute "div" "href" Value.null Ledger.empty).attr
        = none
      ∧ (convert_idl_to_content_attribute "div" "href" Value.null Ledger.empty).diag
        = true)
    ∧ ((convert_idl_to_content_attribute "div" "href"
          (Value.obj []) Ledger.empty).attr = none
      ∧ (convert_idl_to_content_attribute "div" "href"
          (Value.obj []) Ledger.empty).diag = true)
    ∧ ((convert_idl_to_content_attribute "div" "href"
          (Value.arr []) Ledger.empty).attr = none
      ∧ (convert_idl_to_content_attribute "div" "href"
          (Value.arr []) Ledger.empty).diag = true) :=
  ⟨(c3_unknown_shapes "div" "href" Ledger.empty [] []).1,
    (c3_unknown_shapes "div" "href" Ledger.empty [] []).2.1,
    (c3_unknown_shapes "div" "href" Ledger.empty [] []).2.2
      (by decide) (by decide)⟩

/-- C4: for every tag and every JSON array, coercion for the
class-list (`className`) and relationship-list (`rel`) properties
yields an attribute whose value space-joins the array's string
elements, dropping non-strings; in particular
`coerce("div", "className", ["foo", "bar"])` yields `class="foo bar"`. -/
theorem c4_array_list_valued :
    (∀ (tag_name : String) (vs : List Value) (st : Ledger),
      (convert_idl_to_content_attribute tag_name "className"
          (Value.arr vs) st).attr
        = some ⟨make_attribute_name "class",
            String.intercalate " " (vs.filterMap Value.asStr)⟩)
    ∧ (∀ (tag_name : String) (vs : List Value) (st : Ledger),
      (convert_idl_to_content_attribute tag_name "rel"
          (Value.arr vs) st).attr
        = some ⟨make_attribute_name "rel",
            String.intercalate " " (vs.filterMap Value.asStr)⟩)
    ∧ (convert_idl_to_content_attribute "div" "className"
        (Value.arr [Value.str "foo", Value.str "bar"]) Ledger.empty).attr
      = some ⟨make_attribute_name "class", "foo bar"⟩ := by
  refine ⟨?_, ?_, ?_⟩
  · intro tag_name vs st
    simp only [convert_idl_to_content_attribute,
      rename_idl_to_content_attribute, if_pos (Or.inl rfl)]
    simp [renameResult_className]
  · intro tag_name vs st
    simp only [convert_idl_to_content_attribute,
      rename_idl_to_content_attribute, if_pos (Or.inr rfl)]
    simp [renameResult_rel]
  · rfl

/-- C5: coercing boolean `false` yields "omit" (leaving the ledger
untouched), coercing boolean `true` yields an attribute with the empty
value under the renamed name; in particular for `details`/`open`. -/
theorem c5_boolean_values :
    (∀ (tag_name attribute_name : String) (st : Ledger),
      convert_idl_to_content_attribute tag_name attribute_name
        (Value.bool false) st = ⟨none, st, false⟩)
    ∧ (∀ (tag_name attribute_name : String) (st : Ledger),
      (convert_idl_to_content_attribute tag_name attribute_name
          (Value.bool true) st).attr
        = some ⟨make_attribute_name (renameResult tag_name attribute_name), ""⟩)
    ∧ (convert_idl_to_content_attribute "details" "open"
        (Value.bool true) Ledger.empty).attr
      = some ⟨make_attribute_name "open", ""⟩
    ∧ (convert_idl_to_content_attribute "details" "open"
        (Value.bool false) Ledger.empty).attr = none :=
  ⟨fun _ _ _ => rfl, fun _ _ _ => rfl, rfl, rfl⟩

/-- C6: whenever parsing succeeds, the resulting tree has the
single-`html`-child shape, and serializing it therefore succeeds. -/
theorem c6_parse_serialize (input : List Nat) (dom : RcDom)
    (h : parse input = Except.ok dom) :
    (∃ attrs kids, dom.document.children
      = [Node.mk (NodeData.element ⟨none, htmlNamespace, "html"⟩ attrs) kids])
    ∧ ∃ s, serialize dom = Except.ok s := by
  unfold parse at h
  cases hd : decodeUtf8 input with
  | none => rw [hd] at h; cases h
  | some s =>
    rw [hd] at h
    injection h with h
    subst h
    refine ⟨⟨[], fragmentContent s, rfl⟩, ?_⟩
    exact (serialize_ok_iff _).mpr ⟨[], fragmentContent s, rfl⟩

/-- C6, witness: parsing the concrete byte input `hi` succeeds and the
parsed document serializes successfully. -/
theorem c6_witness :
    (serialize (RcDom.mk (Node.mk NodeData.document
      [Node.mk (NodeData.element ⟨none, htmlNamespace, "html"⟩ [])
        [Node.mk (NodeData.text "hi") []]]))).isOk = true := by
  obtain ⟨s, hs⟩ := (c6_parse_serialize [104, 105]
    (RcDom.mk (Node.mk NodeData.document
      [Node.mk (NodeData.element ⟨none, htmlNamespace, "html"⟩ [])
        [Node.mk (NodeData.text "hi") []]])) (by rfl)).2
  rw [hs]
  rfl

/-- C7: after any sequence of coercion calls starting from the initial
empty statics, the "seen but not allowlisted" snapshot is a subset of
the "all seen" snapshot, both snapshots are strictly sorted and free
of duplicates, and one further coercion call only ever grows both
sets. -/
theorem c7_ledger_invariants (st : Ledger) (h : Reachable st) :
    LedgerGood st
    ∧ ∀ (tag_name attribute_name : String) (v : Value),
        debug_attributes_seen st ⊆ debug_attributes_seen
          (convert_idl_to_content_attribute tag_name attribute_name v st).ledger
        ∧ debug_not_known_good_attributes_seen st ⊆
          debug_not_known_good_attributes_seen
            (convert_idl_to_content_attribute tag_name attribute_name v st).ledger := by
  constructor
  · induction h with
    | empty => exact ledgerGood_empty
    | step tag_name attribute_name v hst ih => exact ledgerGood_convert _ _ _ ih
  · intro tag_name attribute_name v
    exact ledger_grow tag_name attribute_name v st

/-- C7, witness: the ledger after one concrete coercion call satisfies
the invariants. -/
theorem c7_witness :
    LedgerGood (convert_idl_to_content_attribute "div" "dataFoo"
      (Value.str "1") Ledger.empty).ledger :=
  (c7_ledger_invariants _
    (Reachable.step "div" "dataFoo" (Value.str "1") Reachable.empty)).1

/-- C8: the traversal iterator starts from the pending queue holding
the root, each step pops the front node, yields it and appends its
children at the back; the yielded sequence is finite — it enumerates
exactly the tree's nodes, once each — and on the depth-2 example tree
with root R, children A and B, and A carrying C, the order is
R, A, B, C. -/
theorem c8_breadth_first_traverse :
    (Traverse.next [] = none)
    ∧ (∀ (n : Node) (rest : List Node),
        Traverse.next (n :: rest) = some (n, rest ++ n.children))
    ∧ (∀ q : List Node, (runTraverse q).Perm (allNodesList q))
    ∧ (∀ root : Node, (traverse root).length = root.size)
    ∧ traverse nodeR = [nodeR, nodeA, nodeB, nodeC] := by
  refine ⟨rfl, fun n rest => rfl, ?_, ?_, ?_⟩
  · intro q
    exact runTraverse_perm_all (sizeList q) q le_rfl
  · intro root
    have h := runTraverse_length (sizeList [root]) [root] le_rfl
    unfold traverse
    rw [h]
    simp [sizeList, size_eq]
  · simp only [traverse, nodeR, nodeA, nodeB, nodeC]
    rw [runTraverse]
    simp only [Node.children, List.nil_append]
    rw [runTraverse]
    simp only [Node.children, List.cons_append, List.nil_append]
    rw [runTraverse]
    simp only [Node.children, List.cons_append, List.nil_append, List.append_nil]
    rw [runTraverse]
    simp only [Node.children, List.nil_append, List.append_nil]
    rw [runTraverse]

/-- C9: `create_fragment` returns a document whose sole child is the
`html` wrapper element, and serializing it with no content appended
yields the empty string — the wrapper itself is never emitted. -/
theorem c9_create_fragment :
    create_fragment.1.document.children = [create_fragment.2]
    ∧ create_fragment.2
      = Node.mk (NodeData.element (make_html_tag_name "html") []) []
    ∧ serialize create_fragment.1 = Except.ok "" :=
  ⟨rfl, rfl, rfl⟩

/-- C10: `attr_value` never returns the decoding-failure error: for
every attribute list and name it returns `Ok` of the first matching
attribute's (successfully decoded) string value in document order, or
`Ok none` when no attribute matches. -/
theorem c10_attr_value_total (attrs : List Attribute) (name : String) :
    attr_value attrs name = Except.ok (attr_value_spec attrs name) := by
  induction attrs with
  | nil => rfl
  | cons attr rest ih =>
    unfold attr_value attr_value_spec
    by_cases h : attr.name = (⟨none, "", name⟩ : QualName)
    · rw [if_pos h, if_pos h]
      have ht : tendril_to_str attr.value = Except.ok attr.value := by
        unfold tendril_to_str
        rw [decodeUtf8_utf8Encode]
      rw [ht]
    · rw [if_neg h, if_neg h]
      exact ih

end Dom
